import Mathlib

/-!
# Verification of the patchwork calculation agent (runner.go)

A shallow embedding of the job-execution pipeline of `runner.go`:
the artifact codec (`MakeArtefact`/`ReadArtefact`), the input
materializer (`ExpandContextFile`/`HandleAsArtefact`), the change
scanner (`GetChangedFiles`), the result packager (`PackageResult`,
`HandleOutputFile`, `TrimAndSplit`, `StringsToJson`), the result
uploader (`SendResult`), the orchestrator (`RunCalculation`) and the
admission gate (`limitNumClients`).

Go byte slices are modelled as `List Nat` (each element a byte value
below 256); Go strings that carry raw bytes are modelled as `String`
with the byte view `bytesOf`.  Fallible Go functions return
`GoOutcome`, which has an explicit constructor for a Go runtime panic
(failed type assertion, out-of-range index, nil-pointer dereference),
since several code paths of `runner.go` reach one.
-/

namespace Patchwork

/-- Outcome of a fallible Go computation: a runtime panic, a returned
non-nil `error`, or a normal result. -/
inductive GoOutcome (α : Type) where
  | panic (msg : String)
  | err (e : String)
  | ok (val : α)
deriving Repr, DecidableEq

/-- Byte view of a Lean string standing for a Go (byte) string. -/
def bytesOf (s : String) : List Nat := s.data.map Char.toNat

/-- String view of a byte list (Latin-1 style; faithful for byte
values below 256, which is all the model produces). -/
def stringOfBytes (bs : List Nat) : String := String.mk (bs.map Char.ofNat)

/-! ## Base64 (Go `encoding/base64` StdEncoding) -/

/-- The standard base64 alphabet, by index. -/
def b64char (n : Nat) : Char :=
  if n < 26 then Char.ofNat (65 + n)
  else if n < 52 then Char.ofNat (97 + (n - 26))
  else if n < 62 then Char.ofNat (48 + (n - 52))
  else if n = 62 then '+'
  else '/'

/-- Value of a base64 alphabet character; `none` for characters
outside the alphabet (including the padding character). -/
def b64val (c : Char) : Option Nat :=
  if 'A' ≤ c ∧ c ≤ 'Z' then some (c.toNat - 65)
  else if 'a' ≤ c ∧ c ≤ 'z' then some (c.toNat - 97 + 26)
  else if '0' ≤ c ∧ c ≤ '9' then some (c.toNat - 48 + 52)
  else if c = '+' then some 62
  else if c = '/' then some 63
  else none

/-- Model of `base64.StdEncoding.EncodeToString`: three input bytes per four
output characters, `=`-padded final quantum. -/
def b64encode : List Nat → List Char
  | [] => []
  | [a] => [b64char (a / 4), b64char ((a % 4) * 16), '=', '=']
  | [a, b] => [b64char (a / 4), b64char ((a % 4) * 16 + b / 16),
               b64char ((b % 16) * 4), '=']
  | a :: b :: c :: rest =>
      b64char (a / 4) :: b64char ((a % 4) * 16 + b / 16) ::
      b64char ((b % 16) * 4 + c / 64) :: b64char (c % 64) :: b64encode rest

/-- Decoding of four-character quanta, padding allowed only in the
final quantum (as in Go, where a stray `=` elsewhere is corrupt
input).  Go's standard (non-Strict) decoder does not reject non-zero
trailing padding bits, and neither does this model. -/
def b64decodeBlocks : List Char → Option (List Nat)
  | [] => some []
  | c1 :: c2 :: c3 :: c4 :: rest =>
    if rest.isEmpty then
      if c3 = '=' ∧ c4 = '=' then
        match b64val c1, b64val c2 with
        | some v1, some v2 => some [v1 * 4 + v2 / 16]
        | _, _ => none
      else if c4 = '=' then
        match b64val c1, b64val c2, b64val c3 with
        | some v1, some v2, some v3 =>
            some [v1 * 4 + v2 / 16, (v2 % 16) * 16 + v3 / 4]
        | _, _, _ => none
      else
        match b64val c1, b64val c2, b64val c3, b64val c4 with
        | some v1, some v2, some v3, some v4 =>
            some [v1 * 4 + v2 / 16, (v2 % 16) * 16 + v3 / 4, (v3 % 4) * 64 + v4]
        | _, _, _, _ => none
    else
      match b64val c1, b64val c2, b64val c3, b64val c4, b64decodeBlocks rest with
      | some v1, some v2, some v3, some v4, some tail =>
          some ((v1 * 4 + v2 / 16) :: ((v2 % 16) * 16 + v3 / 4) ::
                ((v3 % 4) * 64 + v4) :: tail)
      | _, _, _, _, _ => none
  | _ => none

/-- Model of `base64.StdEncoding.DecodeString`: the Go decoder skips newline
characters, then consumes four-character quanta; anything else is a
`CorruptInputError`, modelled as `none`. -/
def b64decode (cs : List Char) : Option (List Nat) :=
  b64decodeBlocks (cs.filter (fun c => c ≠ '\n' ∧ c ≠ '\r'))

/-! ## Go string helpers -/

/-- Model of `strings.Trim(s, cutset)`: strips every leading and trailing
character contained in `cutset`. -/
def goTrim (s : String) (cutset : List Char) : String :=
  String.mk (((s.data.dropWhile (· ∈ cutset)).reverse.dropWhile (· ∈ cutset)).reverse)

/-- Model of `strings.Split(s, sep)` for a one-character separator `c` (on a
non-empty input this is how `TrimAndSplit` calls it). -/
def splitChar (c : Char) : List Char → List (List Char)
  | [] => [[]]
  | x :: xs =>
    if x = c then [] :: splitChar c xs
    else
      match splitChar c xs with
      | [] => [[x]]
      | h :: t => (x :: h) :: t

/-- First-comma split underlying `strings.SplitN(s, ",", 2)`:
`some (before, after)` when the character occurs, `none` otherwise. -/
def splitFirstAux (c : Char) : List Char → Option (List Char × List Char)
  | [] => none
  | x :: xs =>
    if x = c then some ([], xs)
    else
      match splitFirstAux c xs with
      | some (l, r) => some (x :: l, r)
      | none => none

/-- Model of `strings.SplitN(s, "<c>", 2)`: a two-element list when `c` occurs
in `s`, otherwise the one-element list `[s]`. -/
def goSplitN2 (s : String) (c : Char) : List String :=
  match splitFirstAux c s.data with
  | some (l, r) => [String.mk l, String.mk r]
  | none => [s]

/-- Model of `strings.HasPrefix`. -/
def goHasPrefix (s pre : String) : Bool := pre.data.isPrefixOf s.data

/-- Model of `strings.HasSuffix`. -/
def goHasSuffix (s suf : String) : Bool := suf.data.isSuffixOf s.data

/-- Index just past the last occurrence of `c`, i.e. Go's
`strings.LastIndex(s, c) + 1` (0 when `c` does not occur). -/
def goLastIndexSucc (c : Char) : List Char → Nat
  | [] => 0
  | x :: xs =>
    match goLastIndexSucc c xs with
    | 0 => if x = c then 1 else 0
    | n + 1 => n + 2

/-- Model of `name[strings.LastIndex(name, ".")+1:]` — the extension
computation of `ReadArtefact`: the substring after the last dot, the
whole string when no dot occurs. -/
def goExtension (name : String) : String :=
  String.mk (name.data.drop (goLastIndexSucc '.' name.data))

/-- Model of `filepath.Base` (Unix rules): strip trailing slashes, then keep
everything after the last remaining slash; `""` gives `"."`, an
all-slash path gives `"/"`. -/
def goBase (path : String) : String :=
  if path = "" then "."
  else
    match (path.data.reverse.dropWhile (· = '/')).reverse with
    | [] => "/"
    | l => String.mk ((l.reverse.takeWhile (· ≠ '/')).reverse)

/-- Model of `filepath.Abs(name)` as `GetChangedFiles` calls it: the directory
entry's base name resolved against the process's current working
directory (not against the directory being scanned). -/
def goAbs (cwd name : String) : String := cwd ++ "/" ++ name

/-! ## Go JSON string encoding (`encoding/json`)

`json.Marshal` of a string: quoted, with `"`/`\`/control characters
escaped, and `<`, `>`, `&` HTML-escaped. -/

/-- Lower-case hex digit of a value below 16. -/
def hexDigit (n : Nat) : Char :=
  if n < 10 then Char.ofNat (48 + n) else Char.ofNat (87 + n)

/-- Escape of one character inside a Go JSON string. -/
def goJsonEscapeChar (c : Char) : String :=
  if c = '"' then "\\\""
  else if c = '\\' then "\\\\"
  else if c = '\n' then "\\n"
  else if c = '\r' then "\\r"
  else if c = '\t' then "\\t"
  else if c = '<' then "\\u003c"
  else if c = '>' then "\\u003e"
  else if c = '&' then "\\u0026"
  else if c.toNat < 32 then
    "\\u00" ++ String.mk [hexDigit (c.toNat / 16), hexDigit (c.toNat % 16)]
  else if c.toNat = 0x2028 ∨ c.toNat = 0x2029 then
    "\\u202" ++ String.mk [hexDigit (c.toNat % 16)]
  else String.mk [c]

/-- Model of `json.Marshal` of a Go string. -/
def goJsonString (s : String) : String :=
  "\"" ++ String.join (s.data.map goJsonEscapeChar) ++ "\""

/-! ## Content sniffing (Go's `http.DetectContentType`, mimesniff)

`MakeArtefact` calls `http.DetectContentType` from the Go standard
library (not part of this repository); it is embedded here from the
mimesniff algorithm of Go's `net/http/sniff.go`: take the first 512
bytes, skip leading whitespace for the signatures that ask for it, and
return the content type of the first matching signature, falling back
to `application/octet-stream`. -/

/-- Byte view of an ASCII pattern string. -/
def strBytes (s : String) : List Nat := s.data.map Char.toNat

/-- mimesniff whitespace bytes (`\t \n \x0c \r ' '`). -/
def sniffIsWS (b : Nat) : Bool :=
  b = 9 ∨ b = 10 ∨ b = 12 ∨ b = 13 ∨ b = 32

/-- One sniffing signature of `sniffSignatures`. -/
inductive SniffSig where
  | html (tag : String)
  | masked (mask pat : List Nat) (skipWS : Bool) (ct : String)
  | exactSig (sig : List Nat) (ct : String)
  | mp4
  | text

/-- The content type a signature announces when it matches. -/
def SniffSig.ct : SniffSig → String
  | .html _ => "text/html; charset=utf-8"
  | .masked _ _ _ ct => ct
  | .exactSig _ ct => ct
  | .mp4 => "video/mp4"
  | .text => "text/plain; charset=utf-8"

/-- Case-insensitive tag comparison of `htmlSig.match`: an upper-case
pattern byte is compared against the data byte with bit `0x20`
cleared. -/
def htmlMatchBytes : List Nat → List Nat → Bool
  | [], _ => true
  | b :: bs, d :: ds =>
    (b = (if 65 ≤ b ∧ b ≤ 90 then Nat.land d 0xDF else d)) && htmlMatchBytes bs ds
  | _ :: _, [] => false

/-- Mask-and-compare of `maskedSig.match`. -/
def maskedMatchBytes : List Nat → List Nat → List Nat → Bool
  | [], [], _ => true
  | m :: ms, p :: ps, d :: ds => (Nat.land d m = p) && maskedMatchBytes ms ps ds
  | _, _, _ => false

/-- Scan of the `ftyp` box of `mp4Sig.match`: looks for the bytes
`mp4` at every offset `st = 8, 16, 20, ...` below `boxSize`, skipping
offset 12 (the major-brand version). -/
def mp4Scan (data : List Nat) (boxSize : Nat) : Nat → Nat → Bool
  | _, 0 => false
  | st, fuel + 1 =>
    if st < boxSize then
      if st = 12 then mp4Scan data boxSize (st + 4) fuel
      else if (data.drop st).take 3 = strBytes "mp4" then true
      else mp4Scan data boxSize (st + 4) fuel
    else false

/-- Model of `mp4Sig.match`. -/
def mp4Match (data : List Nat) : Option String :=
  if data.length < 12 then none
  else
    let boxSize := (data.getD 0 0) * 16777216 + (data.getD 1 0) * 65536 +
                   (data.getD 2 0) * 256 + data.getD 3 0
    if data.length < boxSize ∨ boxSize % 4 ≠ 0 then none
    else if (data.drop 4).take 4 ≠ strBytes "ftyp" then none
    else if mp4Scan data boxSize 8 boxSize then some "video/mp4" else none

/-- Model of `sniffSig.match` for each signature kind. -/
def sniffMatch (s : SniffSig) (data : List Nat) (firstNonWS : Nat) : Option String :=
  match s with
  | .html tag =>
    let d := data.drop firstNonWS
    let tb := strBytes tag
    if d.length < tb.length + 1 then none
    else if htmlMatchBytes tb d then
      let nb := d.getD tb.length 0
      if nb = 32 ∨ nb = 62 then some "text/html; charset=utf-8" else none
    else none
  | .masked mask pat skipWS ct =>
    let d := if skipWS then data.drop firstNonWS else data
    if pat.length ≠ mask.length then none
    else if d.length < pat.length then none
    else if maskedMatchBytes mask pat d then some ct else none
  | .exactSig sig ct => if sig.isPrefixOf data then some ct else none
  | .mp4 => mp4Match data
  | .text =>
    if (data.drop firstNonWS).all
        (fun b => ¬(b ≤ 8 ∨ b = 0x0B ∨ (0x0E ≤ b ∧ b ≤ 0x1A) ∨ (0x1C ≤ b ∧ b ≤ 0x1F)))
    then some "text/plain; charset=utf-8" else none

/-- The `sniffSignatures` table of Go 1.17's `net/http/sniff.go`. -/
def sniffSignatures : List SniffSig :=
  [ .html "<!DOCTYPE HTML", .html "<HTML", .html "<HEAD", .html "<SCRIPT",
    .html "<IFRAME", .html "<H1", .html "<DIV", .html "<FONT", .html "<TABLE",
    .html "<A", .html "<STYLE", .html "<TITLE", .html "<B", .html "<BODY",
    .html "<BR", .html "<P", .html "<!--",
    .masked [0xFF, 0xFF, 0xFF, 0xFF, 0xFF] (strBytes "<?xml") true
      "text/xml; charset=utf-8",
    .exactSig (strBytes "%PDF-") "application/pdf",
    .exactSig (strBytes "%!PS-Adobe-") "application/postscript",
    .masked [0xFF, 0xFF, 0, 0] [0xFE, 0xFF, 0, 0] false "text/plain; charset=utf-16be",
    .masked [0xFF, 0xFF, 0, 0] [0xFF, 0xFE, 0, 0] false "text/plain; charset=utf-16le",
    .masked [0xFF, 0xFF, 0xFF, 0] [0xEF, 0xBB, 0xBF, 0] false "text/plain; charset=utf-8",
    .exactSig [0, 0, 1, 0] "image/x-icon",
    .exactSig [0, 0, 2, 0] "image/x-icon",
    .exactSig (strBytes "BM") "image/bmp",
    .exactSig (strBytes "GIF87a") "image/gif",
    .exactSig (strBytes "GIF89a") "image/gif",
    .masked [0xFF, 0xFF, 0xFF, 0xFF, 0, 0, 0, 0, 0xFF, 0xFF, 0xFF, 0xFF, 0xFF, 0xFF]
      (strBytes "RIFF" ++ [0, 0, 0, 0] ++ strBytes "WEBPVP") false "image/webp",
    .exactSig ([0x89] ++ strBytes "PNG" ++ [0x0D, 0x0A, 0x1A, 0x0A]) "image/png",
    .exactSig [0xFF, 0xD8, 0xFF] "image/jpeg",
    .masked [0xFF, 0xFF, 0xFF, 0xFF] (strBytes ".snd") false "audio/basic",
    .masked [0xFF, 0xFF, 0xFF, 0xFF, 0, 0, 0, 0, 0xFF, 0xFF, 0xFF, 0xFF]
      (strBytes "FORM" ++ [0, 0, 0, 0] ++ strBytes "AIFF") false "audio/aiff",
    .masked [0xFF, 0xFF, 0xFF] (strBytes "ID3") false "audio/mpeg",
    .masked [0xFF, 0xFF, 0xFF, 0xFF, 0xFF] (strBytes "OggS" ++ [0]) false
      "application/ogg",
    .masked [0xFF, 0xFF, 0xFF, 0xFF, 0xFF, 0xFF, 0xFF, 0xFF]
      (strBytes "MThd" ++ [0, 0, 0, 6]) false "audio/midi",
    .masked [0xFF, 0xFF, 0xFF, 0xFF, 0, 0, 0, 0, 0xFF, 0xFF, 0xFF, 0xFF]
      (strBytes "RIFF" ++ [0, 0, 0, 0] ++ strBytes "AVI ") false "video/avi",
    .masked [0xFF, 0xFF, 0xFF, 0xFF, 0, 0, 0, 0, 0xFF, 0xFF, 0xFF, 0xFF]
      (strBytes "RIFF" ++ [0, 0, 0, 0] ++ strBytes "WAVE") false "audio/wave",
    .mp4,
    .exactSig [0x1A, 0x45, 0xDF, 0xA3] "video/webm",
    .masked (List.replicate 34 0 ++ [0xFF, 0xFF]) (List.replicate 34 0 ++ strBytes "LP")
      false "application/vnd.ms-fontobject",
    .exactSig [0, 1, 0, 0] "font/ttf",
    .exactSig (strBytes "OTTO") "font/otf",
    .exactSig (strBytes "ttcf") "font/collection",
    .exactSig (strBytes "wOFF") "font/woff",
    .exactSig (strBytes "wOF2") "font/woff2",
    .exactSig [0x1F, 0x8B, 0x08] "application/x-gzip",
    .exactSig (strBytes "PK" ++ [0x03, 0x04]) "application/zip",
    .exactSig (strBytes "Rar!" ++ [0x1A, 0x07, 0x00]) "application/x-rar-compressed",
    .exactSig (strBytes "Rar!" ++ [0x1A, 0x07, 0x01, 0x00]) "application/x-rar-compressed",
    .exactSig [0x00, 0x61, 0x73, 0x6D] "application/wasm",
    .text ]

/-- First matching signature, in table order. -/
def firstSniffMatch (sigs : List SniffSig) (data : List Nat) (firstNonWS : Nat) :
    Option String :=
  match sigs with
  | [] => none
  | s :: rest =>
    match sniffMatch s data firstNonWS with
    | some ct => some ct
    | none => firstSniffMatch rest data firstNonWS

/-- Model of `http.DetectContentType`. -/
def DetectContentType (data : List Nat) : String :=
  let data := data.take 512
  let firstNonWS := (data.takeWhile sniffIsWS).length
  match firstSniffMatch sniffSignatures data firstNonWS with
  | some ct => ct
  | none => "application/octet-stream"

/-! ## Data model (`runner.go` types) -/

/-- The `Artefact` struct: a self-describing encoding of a file. -/
structure Artefact where
  name : String
  contentType : String
  uri : String
deriving Repr, DecidableEq

/-- The `CalculationId` struct. -/
structure CalculationId where
  documentType : String
  type : String
  id : String
  version : String
  path : String
deriving Repr, DecidableEq

/-- A JSON value as Go's `json.Unmarshal` produces it into
`interface\x7b\x7d`: `jnull` stands for the nil interface (a JSON
`null` or an absent map key); numbers are modelled as integers (Go
uses `float64`; the claims only involve integral values). -/
inductive JsonValue where
  | jnull
  | jbool (b : Bool)
  | jnum (n : Int)
  | jstr (s : String)
  | jarr (elems : List JsonValue)
  | jobj (fields : List (String × JsonValue))

/-- Whether a value is the nil interface (`content == nil`). -/
def JsonValue.isNull : JsonValue → Bool
  | .jnull => true
  | _ => false

/-- Go map indexing `m["k"]`: the zero value (nil interface) when the
key is absent. -/
def mapGet (fields : List (String × JsonValue)) (key : String) : JsonValue :=
  match fields.find? (fun kv => kv.1 = key) with
  | some kv => kv.2
  | none => .jnull

/-- The Go type assertion `v.(string)`: `none` models the panic. -/
def asGoString : JsonValue → Option String
  | .jstr s => some s
  | _ => none

mutual

/-- Model of `json.Marshal` of a decoded JSON value (never errors on such
values).  Go serializes maps with keys sorted; the model keeps the
field order of the `jobj` literal, which no claim depends on. -/
def jsonSerialize : JsonValue → String
  | .jnull => "null"
  | .jbool true => "true"
  | .jbool false => "false"
  | .jnum n => toString n
  | .jstr s => goJsonString s
  | .jarr xs => "[" ++ String.intercalate "," (jsonSerializeList xs) ++ "]"
  | .jobj fs => "\x7b" ++ String.intercalate "," (jsonSerializeFields fs) ++ "\x7d"

/-- Serialization of the elements of a JSON array. -/
def jsonSerializeList : List JsonValue → List String
  | [] => []
  | x :: xs => jsonSerialize x :: jsonSerializeList xs

/-- Serialization of the fields of a JSON object. -/
def jsonSerializeFields : List (String × JsonValue) → List String
  | [] => []
  | (k, v) :: fs => (goJsonString k ++ ":" ++ jsonSerialize v) :: jsonSerializeFields fs

end

/-- The `CalculationContext` struct (inputs as an association list;
Go's map iteration order is not significant per the spec). -/
structure CalculationContext where
  id : CalculationId
  owner : String
  inputs : List (String × JsonValue)
  failedInputs : List (String × String)

/-- A write of `content` to the file at `path` performed by the code
(`os.WriteFile`). -/
abbrev FileWrite := String × String

/-- One entry of `ioutil.ReadDir`: base name, directory flag, and
modification time (modelled as an integer instant). -/
structure DirEntry where
  name : String
  isDir : Bool
  modTime : Int
deriving Repr, DecidableEq

/-- The observable file-system state a pipeline stage reads:
`readDir` lists a directory (`none` models an `ioutil.ReadDir`
error), `readFile` yields a file's contents (`none` models an
`os.ReadFile` error). -/
structure FileSystem where
  readDir : String → Option (List DirEntry)
  readFile : String → Option String

/-! ## Artifact codec (`MakeArtefact` / `ReadArtefact`) -/

/-- The name/contentType/uri triple `MakeArtefact` computes for a file
at `path` with contents `content` before rendering it to JSON. -/
def MakeArtefactRecord (path : String) (content : String) : Artefact :=
  let data := bytesOf content
  let contentType := DetectContentType data
  { name := goBase path
    contentType := contentType
    uri := "data:" ++ contentType ++ ";base64," ++ String.mk (b64encode data) }

/-- The JSON string `MakeArtefact` returns for an artefact record. -/
def artefactJsonString (a : Artefact) : String :=
  "\x7b\"name\": \"" ++ a.name ++ "\", \"contentType\": \"" ++ a.contentType ++
    "\", \"uri\": " ++ goJsonString a.uri ++ "\x7d"

/-- Model of `MakeArtefact`: reads the file, sniffs the content type, base64
encodes the payload into a data URI and renders the artefact record as
a JSON string. -/
def MakeArtefact (fs : FileSystem) (path : String) : GoOutcome String :=
  match fs.readFile path with
  | none => .err ("read " ++ path)
  | some content => .ok (artefactJsonString (MakeArtefactRecord path content))

/-- Model of `ReadArtefact`: rejects a uri without the `data:` scheme, indexes
`strings.SplitN(uri, ",", 2)[1]` (a Go index-out-of-range panic when
the uri has no comma), base64-decodes the remainder, and writes the
decoded bytes to `<name>.<extension>` where the extension is the part
of the artefact's name after its last dot.  Returns the write
performed. -/
def ReadArtefact (dirpath name : String) (a : Artefact) : GoOutcome (List FileWrite) :=
  if goHasPrefix a.uri "data:" = false then .err "Not a data URI"
  else
    match goSplitN2 a.uri ',' with
    | [_, b64] =>
      match b64decode b64.data with
      | none => .err "illegal base64 data"
      | some raw =>
        .ok [(dirpath ++ "/" ++ name ++ "." ++ goExtension a.name, stringOfBytes raw)]
    | _ => .panic "runtime error: index out of range"

/-! ## Input materializer (`HandleAsArtefact` / `ExpandContextFile`) -/

/-- Model of `HandleAsArtefact`: for non-nil content, performs the unchecked
type assertion `content.(map[string]interface\x7b\x7d)` — a runtime
panic for every non-null, non-object value — then treats the value as
an artefact exactly when its `name`, `uri` and `contentType` entries
are all non-nil (asserting each to `string`, again a panic on a
non-string), decoding it via `ReadArtefact`. -/
def HandleAsArtefact (dirpath name : String) (content : JsonValue) :
    GoOutcome (Bool × List FileWrite) :=
  match content with
  | .jnull => .ok (false, [])
  | .jobj fields =>
    if (mapGet fields "name").isNull = false ∧ (mapGet fields "uri").isNull = false ∧
        (mapGet fields "contentType").isNull = false then
      match asGoString (mapGet fields "name"), asGoString (mapGet fields "contentType"),
          asGoString (mapGet fields "uri") with
      | some nm, some ct, some uri =>
        match ReadArtefact dirpath name ⟨nm, ct, uri⟩ with
        | .panic p => .panic p
        | .err e => .err e
        | .ok ws => .ok (true, ws)
      | _, _, _ => .panic "interface conversion: not a string"
    else .ok (false, [])
  | _ => .panic "interface conversion: not a map"

/-- Model of `ExpandContextFile`: materializes one input; artefact-shaped
values go through the codec, a nil value writes nothing, and any other
value is serialized as JSON into `<name>.json`. -/
def ExpandContextFile (dirpath name : String) (content : JsonValue) :
    GoOutcome (List FileWrite) :=
  match HandleAsArtefact dirpath name content with
  | .panic p => .panic p
  | .err e => .err e
  | .ok (isArtefact, ws) =>
    if isArtefact = false ∧ content.isNull = false then
      .ok (ws ++ [(dirpath ++ "/" ++ name ++ ".json", jsonSerialize content)])
    else .ok ws

/-! ## Change scanner (`GetChangedFiles`) -/

/-- Model of `GetChangedFiles`: lists `dirpath`, keeps every non-directory
entry whose modification time is strictly after `since`
(`file.ModTime().After(since)`), and records `filepath.Abs` of the
entry's base name — which resolves against the process's current
working directory `cwd`, not against `dirpath`. -/
def GetChangedFiles (cwd dirpath : String) (since : Int) (fs : FileSystem) :
    GoOutcome (List String) :=
  match fs.readDir dirpath with
  | none => .err ("readdir " ++ dirpath)
  | some files =>
    .ok (files.filterMap (fun f =>
      if f.isDir = false ∧ since < f.modTime then some (goAbs cwd f.name) else none))

/-! ## Result packager (`TrimAndSplit`, `StringsToJson`,
`HandleOutputFile`, `PackageResult`) -/

/-- Model of `TrimAndSplit`: trims spaces, tabs, carriage returns and newlines
from both ends, splits the remainder on newlines, and returns the
empty list for an all-whitespace input. -/
def TrimAndSplit (str : String) : List String :=
  let t := goTrim str [' ', '\t', '\r', '\n']
  if t.length > 0 then (splitChar '\n' t.data).map String.mk else []

/-- Model of `StringsToJson`: renders a list of strings as a JSON array (the
Go `json.Marshal` of a string never errors, so the `""` fallback of
the source is dead). -/
def StringsToJson (strs : List String) : String :=
  "[" ++ String.intercalate ", " (strs.map goJsonString) ++ "]"

/-- Model of `HandleOutputFile`: a file whose name ends in `.json` is read and
its raw bytes returned verbatim (no JSON parse); any other file is
encoded through the artifact codec. -/
def HandleOutputFile (fs : FileSystem) (file : String) : GoOutcome String :=
  if goHasSuffix file ".json" then
    match fs.readFile file with
    | none => .err ("read " ++ file)
    | some data => .ok data
  else MakeArtefact fs file

/-- The output-assembly loop of `PackageResult`: appends
`"\t\t\"<base>\": <filedata>"` per changed file, comma-separating all
but the first, stopping at the first per-file error. -/
def packageFiles (fs : FileSystem) (files : List String) (first : Bool)
    (response : String) : GoOutcome String :=
  match files with
  | [] => .ok response
  | file :: rest =>
    match HandleOutputFile fs file with
    | .panic p => .panic p
    | .err e => .err e
    | .ok filedata =>
      packageFiles fs rest false
        ((if first then response else response ++ ",\n") ++
          "\t\t\"" ++ goBase file ++ "\": " ++ filedata)

/-- The fixed prefix of the response string: logs and errors rendered
from the captured stdout/stderr, then the opening of `outputs`. -/
def packageHeader (stdout stderr : String) : String :=
  "\x7b\n\t\"logs\": " ++ StringsToJson (TrimAndSplit stdout) ++ ",\n" ++
    "\t\"errors\": " ++ StringsToJson (TrimAndSplit stderr) ++ ",\n" ++
    "\t\"outputs\": \x7b\n"

/-- Model of `PackageResult`: builds the response JSON text by hand — logs,
errors, then one entry per changed file — propagating a scanner or
per-file error to the caller. -/
def PackageResult (cwd dirpath : String) (since : Int) (stdout stderr : String)
    (fs : FileSystem) : GoOutcome String :=
  match GetChangedFiles cwd dirpath since fs with
  | .panic p => .panic p
  | .err e => .err e
  | .ok files =>
    match packageFiles fs files true (packageHeader stdout stderr) with
    | .panic p => .panic p
    | .err e => .err e
    | .ok response => .ok (response ++ "\n\t\x7d\n\x7d")

/-! ## Result uploader (`SendResult`) -/

/-- Outcome of `http.DefaultClient.Do(req)`: a response with no
error, a transport failure (nil response, non-nil error), or a
redirect-policy failure (both non-nil). -/
inductive DoResult where
  | success (status : Nat)
  | transportFailure (msg : String)
  | redirectFailure (status : Nat) (msg : String)
deriving Repr, DecidableEq

/-- Model of `SendResult` after the POST: the source checks
`resp.StatusCode != 200` before checking `err`, so a transport
failure — where `resp` is nil — dereferences a nil pointer (runtime
panic) instead of returning the transport error. -/
def SendResult (d : DoResult) : GoOutcome Unit :=
  match d with
  | .success status =>
    if status ≠ 200 then .err ("status " ++ toString status) else .ok ()
  | .transportFailure _ =>
    .panic "runtime error: invalid memory address or nil pointer dereference"
  | .redirectFailure status msg =>
    if status ≠ 200 then .err ("status " ++ toString status) else .err msg

/-! ## Orchestrator (`RunCalculation`) -/

/-- The pipeline stages of `RunCalculation`, in order. -/
inductive Stage where
  | fetch | expand | run | package | send
deriving Repr, DecidableEq

/-- The external effects one `RunCalculation` call observes: the
context fetch and input expansion outcomes, the command's captured
output and exit error, whether the timeout context reported
`DeadlineExceeded`, the file system as it stands after the command,
the pre-command timestamp, and the coordinator's reply to the result
upload. -/
structure RunEnv where
  cwd : String
  dirpath : String
  getContextResult : GoOutcome CalculationContext
  expandResult : GoOutcome (List FileWrite)
  procStdout : String
  procStderr : String
  procRunError : Option String
  deadlineExceeded : Bool
  since : Int
  fsAfter : FileSystem
  doResult : DoResult

/-- The captured-stderr text as `RunCalculation` assembles it: the
process's own stderr, then the `cmd.Run` error text if any, then the
literal `"Command timed out"` exactly when the context deadline was
exceeded. -/
def mkErrStr (env : RunEnv) : String :=
  env.procStderr ++
    (match env.procRunError with | some m => m | none => "") ++
    (if env.deadlineExceeded then "Command timed out" else "")

/-- What one `RunCalculation` call did: the stages it reached, the
stderr text it handed to the packager (once the run stage completed),
and its returned outcome. -/
structure RunOutcome where
  stages : List Stage
  errStrUsed : Option String
  result : GoOutcome Unit
deriving Repr, DecidableEq

/-- Model of `RunCalculation`: fetch context, expand inputs, run the command
(its exit error and a deadline flag only append to captured stderr —
never abort), package the changed files, upload the response.  Each
stage's error short-circuits the rest; the run stage never errors. -/
def RunCalculation (env : RunEnv) : RunOutcome :=
  match env.getContextResult with
  | .panic p => ⟨[.fetch], none, .panic p⟩
  | .err e => ⟨[.fetch], none, .err e⟩
  | .ok _ =>
    match env.expandResult with
    | .panic p => ⟨[.fetch, .expand], none, .panic p⟩
    | .err e => ⟨[.fetch, .expand], none, .err e⟩
    | .ok _ =>
      match PackageResult env.cwd env.dirpath env.since env.procStdout (mkErrStr env)
          env.fsAfter with
      | .panic p => ⟨[.fetch, .expand, .run, .package], some (mkErrStr env), .panic p⟩
      | .err e => ⟨[.fetch, .expand, .run, .package], some (mkErrStr env), .err e⟩
      | .ok _ =>
        ⟨[.fetch, .expand, .run, .package, .send], some (mkErrStr env),
          SendResult env.doResult⟩

/-! ## Admission gate (`limitNumClients`)

`limitNumClients` wraps the handler with a buffered channel of
capacity `maxClients`: `sema <- struct\x7b\x7d\x7b\x7d` before calling
`f`, `defer func() \x7b <-sema \x7d()` so the slot is released when
the handler returns on any path.  The channel is modelled as a counter
`slots` bounded by the capacity, and each incoming request as a client
that is waiting, inside `f` (handling), or finished. -/

/-- The phase of one HTTP request's handler. -/
inductive Phase where
  | waiting | handling | finished
deriving Repr, DecidableEq, BEq

/-- Global state: the phase of each arrived request and the number of
occupied channel slots. -/
structure GateState where
  phases : List Phase
  slots : Nat
deriving Repr, DecidableEq

/-- Initial state: `n` arrived requests, none yet admitted, channel
empty. -/
def initGate (n : Nat) : GateState :=
  ⟨List.replicate n .waiting, 0⟩

/-- One step of the gate: a waiting handler's channel send completes
only while a slot is free (otherwise it blocks — there is no rejecting
step), or a handling handler returns and its deferred receive frees
the slot unconditionally. -/
inductive GateStep (maxClients : Nat) : GateState → GateState → Prop where
  | acquire (s : GateState) (i : Nat) (h : s.phases[i]? = some .waiting)
      (hs : s.slots < maxClients) :
      GateStep maxClients s ⟨s.phases.set i .handling, s.slots + 1⟩
  | release (s : GateState) (i : Nat) (h : s.phases[i]? = some .handling) :
      GateStep maxClients s ⟨s.phases.set i .finished, s.slots - 1⟩

/-- States reachable from `n` arrived requests under capacity
`maxClients`. -/
def GateReachable (maxClients n : Nat) (s : GateState) : Prop :=
  Relation.ReflTransGen (GateStep maxClients) (initGate n) s

/-- Number of handlers currently inside `f` (holding a slot). -/
def countHandling : List Phase → Nat
  | [] => 0
  | .handling :: rest => countHandling rest + 1
  | _ :: rest => countHandling rest

/-! ## Concrete fixtures used by witnesses and counterexamples -/

/-- A working directory holding one changed file `bad.json` whose
contents are not valid JSON. -/
def fsBadJson : FileSystem :=
  ⟨fun _ => some [⟨"bad.json", false, 5⟩],
   fun p => if p = "/w/bad.json" then some "not json" else none⟩

/-- A working directory holding one changed file `a.json` containing
the JSON number `5`. -/
def fsAJson : FileSystem :=
  ⟨fun _ => some [⟨"a.json", false, 10⟩],
   fun p => if p = "/w/a.json" then some "5" else none⟩

/-- A directory listing with an old file, a new file and a new
subdirectory. -/
def fsMixed : FileSystem :=
  ⟨fun _ => some [⟨"new.json", false, 10⟩, ⟨"old.txt", false, 3⟩, ⟨"sub", true, 10⟩],
   fun _ => none⟩

/-- A service-mode job directory `/srv/calc1` under the process's
working directory `/srv`, holding one changed file. -/
def fsJobDir : FileSystem :=
  ⟨fun p => if p = "/srv/calc1" then some [⟨"out.json", false, 10⟩] else some [],
   fun _ => none⟩

/-- An environment for one `RunCalculation` whose command hit the
deadline: context fetch and expansion succeeded, the killed process
left an exit error, the deadline flag is set, and the coordinator
accepts the upload. -/
def envTimeout : RunEnv :=
  { cwd := "/w"
    dirpath := "/w"
    getContextResult := .ok ⟨⟨"", "", "", "", ""⟩, "", [], []⟩
    expandResult := .ok []
    procStdout := ""
    procStderr := "out"
    procRunError := none
    deadlineExceeded := true
    since := 0
    fsAfter := ⟨fun _ => some [], fun _ => none⟩
    doResult := .success 200 }

/-! # Claim theorems -/

/-- C1 (code evaluated at the failing input): for the spec's concrete
scenario input pair `("a", 5)` — a value that is neither null nor
Artifact-shaped — `ExpandContextFile` does not serialize the value to
`a.json`: the unchecked type assertion
`content.(map[string]interface\x7b\x7d)` in `HandleAsArtefact`
panics on the non-object value `5`. -/
theorem expandContextFile_number_input_panics :
    ExpandContextFile "/w" "a" (.jnum 5) = .panic "interface conversion: not a map" := rfl

/-- C6 (code evaluated at the failing input): on a transport-level
failure `http.DefaultClient.Do` returns a nil response with a non-nil
error, and `SendResult` reads `resp.StatusCode` before checking the
error — a nil-pointer runtime panic, not a NetworkError. -/
theorem sendResult_transport_failure_panics :
    SendResult (.transportFailure "connection refused") =
      .panic "runtime error: invalid memory address or nil pointer dereference" := rfl

/-- C9 counterexample: the captured text `"a\n\nb"` trims to itself
(non-empty), yet its split contains the empty string as the middle
element — so not every element of the result is a non-empty line. -/
theorem trimAndSplit_interior_empty :
    TrimAndSplit "a\n\nb" = ["a", "", "b"] ∧ "" ∈ TrimAndSplit "a\n\nb" := by
  exact ⟨rfl, by decide⟩

/-- C5 counterexample: the changed file `bad.json` contains
`not json`, which no JSON parser accepts, yet packaging does not
abort with a FormatError — `HandleOutputFile` embeds the raw bytes
verbatim without parsing, and `PackageResult` returns the (now
malformed) response successfully. -/
theorem packageResult_malformed_json_not_error :
    PackageResult "/w" "/w" 0 "" "" fsBadJson =
      .ok "\x7b\n\t\"logs\": [],\n\t\"errors\": [],\n\t\"outputs\": \x7b\n\t\t\"bad.json\": not json\n\t\x7d\n\x7d" := rfl

/-- C4 counterexample: the uri `"data:"` begins with `data:` yet
contains no comma, so `strings.SplitN(uri, ",", 2)` yields a single
element and the index `[1]` panics — the decode neither fails with a
FormatError nor writes a file. -/
theorem readArtefact_no_comma_panics :
    goHasPrefix "data:" "data:" = true ∧
    ReadArtefact "/w" "x" ⟨"x.png", "image/png", "data:"⟩ =
      .panic "runtime error: index out of range" := ⟨rfl, rfl⟩

/-! ## Change-scanner lemmas and claims C7, C8 -/

/-- Characterization of the change scanner's members: every returned
path comes from a fresh non-directory entry, resolved with `goAbs`
against the process working directory. -/
theorem getChangedFiles_mem (cwd dirpath : String) (since : Int) (fs : FileSystem)
    (entries : List DirEntry) (files : List String)
    (hdir : fs.readDir dirpath = some entries)
    (hres : GetChangedFiles cwd dirpath since fs = .ok files) :
    ∀ p ∈ files, ∃ e ∈ entries,
      p = goAbs cwd e.name ∧ e.isDir = false ∧ since < e.modTime := by
  unfold GetChangedFiles at hres
  rw [hdir] at hres
  simp only [GoOutcome.ok.injEq] at hres
  subst hres
  intro p hp
  rw [List.mem_filterMap] at hp
  obtain ⟨e, he, heq⟩ := hp
  refine ⟨e, he, ?_⟩
  by_cases hcond : e.isDir = false ∧ since < e.modTime
  · rw [if_pos hcond] at heq
    exact ⟨(Option.some.inj heq).symm, hcond⟩
  · rw [if_neg hcond] at heq
    exact absurd heq (by simp)

/-- C7: the change scanner only reports non-directory entries whose
modification time is strictly after `since` — never an entry at or
before `since`, never a subdirectory. -/
theorem getChangedFiles_excludes (cwd dirpath : String) (since : Int) (fs : FileSystem)
    (entries : List DirEntry) (files : List String)
    (hdir : fs.readDir dirpath = some entries)
    (hres : GetChangedFiles cwd dirpath since fs = .ok files) :
    ∀ p ∈ files, ∃ e ∈ entries,
      p = goAbs cwd e.name ∧ e.isDir = false ∧ since < e.modTime :=
  getChangedFiles_mem cwd dirpath since fs entries files hdir hres

/-- C7 witness: the scan of a directory with one fresh file, one stale
file and one fresh subdirectory reports only the fresh file, which the
theorem certifies is a fresh non-directory entry. -/
theorem getChangedFiles_excludes_witness :
    ∃ e ∈ [(⟨"new.json", false, 10⟩ : DirEntry), ⟨"old.txt", false, 3⟩, ⟨"sub", true, 10⟩],
      "/cwd/new.json" = goAbs "/cwd" e.name ∧ e.isDir = false ∧ (5 : Int) < e.modTime :=
  getChangedFiles_excludes "/cwd" "/d" 5 fsMixed
    [⟨"new.json", false, 10⟩, ⟨"old.txt", false, 3⟩, ⟨"sub", true, 10⟩]
    ["/cwd/new.json"] rfl rfl "/cwd/new.json" (by decide)

/-- C8: every path `GetChangedFiles` returns is the directory entry's
base name resolved against the process's current working directory
(`filepath.Abs` semantics), not against the scanned `dirpath`; for the
directory shapes the program uses — `dirpath = cwd` in CLI mode, or a
temporary subdirectory `cwd/<sub>` in service mode — a returned path
lies inside `dirpath` only when `dirpath` equals `cwd`. -/
theorem getChangedFiles_resolves_against_cwd (cwd dirpath sub : String) (since : Int)
    (fs : FileSystem) (entries : List DirEntry) (files : List String)
    (hdir : fs.readDir dirpath = some entries)
    (hres : GetChangedFiles cwd dirpath since fs = .ok files)
    (hnames : ∀ e ∈ entries, '/' ∉ e.name.data)
    (hshape : dirpath = cwd ∨ dirpath = cwd ++ "/" ++ sub) :
    (∀ p ∈ files, ∃ e ∈ entries, p = cwd ++ "/" ++ e.name) ∧
    (dirpath = cwd → ∀ p ∈ files, (dirpath ++ "/").data <+: p.data) ∧
    ((∃ p ∈ files, (dirpath ++ "/").data <+: p.data) → dirpath = cwd) := by
  have hmem := getChangedFiles_mem cwd dirpath since fs entries files hdir hres
  refine ⟨?_, ?_, ?_⟩
  · intro p hp
    obtain ⟨e, he, heq, -, -⟩ := hmem p hp
    exact ⟨e, he, heq⟩
  · intro hcwd p hp
    obtain ⟨e, he, heq, -, -⟩ := hmem p hp
    subst hcwd
    rw [heq]
    unfold goAbs
    rw [String.data_append]
    exact List.prefix_append _ _
  · rintro ⟨p, hp, hpre⟩
    rcases hshape with hcwd | hsub
    · exact hcwd
    · exfalso
      obtain ⟨e, he, heq, -, -⟩ := hmem p hp
      subst hsub
      subst heq
      unfold goAbs at hpre
      have h1 : ((cwd ++ "/" ++ sub) ++ "/").data =
          (cwd ++ "/").data ++ (sub ++ "/").data := by
        rw [String.append_assoc (cwd ++ "/") sub "/", String.data_append]
      have h2 : (cwd ++ "/" ++ e.name).data = (cwd ++ "/").data ++ e.name.data :=
        String.data_append _ _
      rw [h1, h2, List.prefix_append_right_inj] at hpre
      have hmemSlash : '/' ∈ e.name.data := by
        refine hpre.subset ?_
        rw [String.data_append]
        exact List.mem_append_right _ (by decide)
      exact absurd hmemSlash (hnames e he)

/-- C8 witness: a service-mode job directory `/srv/calc1` under the
working directory `/srv` — the changed file `out.json` is reported as
`/srv/out.json`, which is not inside `/srv/calc1`. -/
theorem getChangedFiles_resolves_witness :
    (∀ p ∈ ["/srv/out.json"],
      ∃ e ∈ [(⟨"out.json", false, 10⟩ : DirEntry)], p = "/srv" ++ "/" ++ e.name) ∧
    ("/srv/calc1" = "/srv" →
      ∀ p ∈ ["/srv/out.json"], ("/srv/calc1" ++ "/").data <+: p.data) ∧
    ((∃ p ∈ ["/srv/out.json"], ("/srv/calc1" ++ "/").data <+: p.data) →
      "/srv/calc1" = "/srv") :=
  getChangedFiles_resolves_against_cwd "/srv" "/srv/calc1" "calc1" 5 fsJobDir
    [⟨"out.json", false, 10⟩] ["/srv/out.json"] rfl rfl (by decide) (Or.inr rfl)

/-! ## Admission-gate lemmas and claim C10 -/

theorem countHandling_replicate (n : Nat) :
    countHandling (List.replicate n .waiting) = 0 := by
  induction n with
  | zero => rfl
  | succ n ih => simpa [List.replicate_succ, countHandling] using ih

theorem countHandling_set_handling : ∀ (l : List Phase) (i : Nat),
    l[i]? = some .waiting →
    countHandling (l.set i .handling) = countHandling l + 1
  | [], i, h => by simp at h
  | x :: xs, 0, h => by
    simp only [List.getElem?_cons_zero, Option.some.injEq] at h
    subst h
    rfl
  | x :: xs, i + 1, h => by
    simp only [List.getElem?_cons_succ] at h
    have ih := countHandling_set_handling xs i h
    cases x <;> simp only [List.set, countHandling] <;> omega

theorem countHandling_set_finished : ∀ (l : List Phase) (i : Nat),
    l[i]? = some .handling →
    countHandling (l.set i .finished) + 1 = countHandling l
  | [], i, h => by simp at h
  | x :: xs, 0, h => by
    simp only [List.getElem?_cons_zero, Option.some.injEq] at h
    subst h
    rfl
  | x :: xs, i + 1, h => by
    simp only [List.getElem?_cons_succ] at h
    have ih := countHandling_set_finished xs i h
    cases x <;> simp only [List.set, countHandling] <;> omega

theorem gate_invariant (maxClients n : Nat) (s : GateState)
    (h : GateReachable maxClients n s) :
    countHandling s.phases = s.slots ∧ s.slots ≤ maxClients := by
  induction h with
  | refl => simp [initGate, countHandling_replicate]
  | tail hr step ih =>
    obtain ⟨ih1, ih2⟩ := ih
    cases step with
    | acquire i hget hs =>
      have hc := countHandling_set_handling _ i hget
      refine ⟨?_, ?_⟩ <;> dsimp only <;> omega
    | release i hget =>
      have hc := countHandling_set_finished _ i hget
      refine ⟨?_, ?_⟩ <;> dsimp only <;> omega

/-- C10: in every state the admission gate can reach, the number of
handlers concurrently inside the wrapped handler is at most
`maxClients` and equals the number of occupied semaphore slots — a
waiting handler can only enter by taking a free slot (blocking while
none is free, never rejecting), and a completed handler's deferred
receive always returns its slot. -/
theorem admission_gate_bounded (maxClients n : Nat) (s : GateState)
    (h : GateReachable maxClients n s) :
    countHandling s.phases ≤ maxClients ∧ countHandling s.phases = s.slots := by
  obtain ⟨h1, h2⟩ := gate_invariant maxClients n s h
  exact ⟨by omega, h1⟩

/-- C10 witness: with capacity 4 and two arrived requests, the state
after one admission has one handler inside the handler function and
one occupied slot, within the bound. -/
theorem admission_gate_bounded_witness :
    countHandling ((List.replicate 2 Phase.waiting).set 0 .handling) ≤ 4 ∧
    countHandling ((List.replicate 2 Phase.waiting).set 0 .handling) = 0 + 1 :=
  admission_gate_bounded 4 2 ⟨(List.replicate 2 Phase.waiting).set 0 .handling, 0 + 1⟩
    (Relation.ReflTransGen.tail Relation.ReflTransGen.refl
      (GateStep.acquire (initGate 2) 0 (by decide) (by decide)))

/-! ## Orchestrator claim C3 -/

/-- C3: when the deadline fired before the command exited (the timeout
context reports `DeadlineExceeded`), the literal `"Command timed out"`
is appended to the captured stderr handed to the packager, and —
provided the surrounding stages succeed — `RunCalculation` still
reaches the package and send stages, its result being that of the
upload alone: the timeout is reported as data, not escalated into a
pipeline error. -/
theorem runCalculation_timeout_reported (env : RunEnv) (cc : CalculationContext)
    (ws : List FileWrite) (resp : String)
    (hc : env.getContextResult = .ok cc)
    (he : env.expandResult = .ok ws)
    (hp : PackageResult env.cwd env.dirpath env.since env.procStdout (mkErrStr env)
            env.fsAfter = .ok resp)
    (hd : env.deadlineExceeded = true) :
    (∃ pre, mkErrStr env = pre ++ "Command timed out") ∧
    (RunCalculation env).errStrUsed = some (mkErrStr env) ∧
    Stage.package ∈ (RunCalculation env).stages ∧
    Stage.send ∈ (RunCalculation env).stages ∧
    (RunCalculation env).result = SendResult env.doResult := by
  have hrun : RunCalculation env =
      ⟨[.fetch, .expand, .run, .package, .send], some (mkErrStr env),
        SendResult env.doResult⟩ := by
    unfold RunCalculation
    rw [hc, he, hp]
  refine ⟨⟨env.procStderr ++ (match env.procRunError with | some m => m | none => ""), ?_⟩,
    ?_, ?_, ?_, ?_⟩
  · unfold mkErrStr
    rw [hd]
    simp
  · rw [hrun]
  · rw [hrun]
    simp
  · rw [hrun]
    simp
  · rw [hrun]

/-- C3 witness: the concrete timed-out environment `envTimeout` yields
a captured stderr ending in `"Command timed out"` and an outcome that
still packaged and uploaded. -/
theorem runCalculation_timeout_witness :
    (∃ pre, mkErrStr envTimeout = pre ++ "Command timed out") ∧
    (RunCalculation envTimeout).errStrUsed = some (mkErrStr envTimeout) ∧
    Stage.package ∈ (RunCalculation envTimeout).stages ∧
    Stage.send ∈ (RunCalculation envTimeout).stages ∧
    (RunCalculation envTimeout).result = SendResult envTimeout.doResult :=
  runCalculation_timeout_reported envTimeout ⟨⟨"", "", "", "", ""⟩, "", [], []⟩ []
    "\x7b\n\t\"logs\": [],\n\t\"errors\": [\"outCommand timed out\"],\n\t\"outputs\": \x7b\n\n\t\x7d\n\x7d"
    rfl rfl rfl rfl

/-! ## Split / trim lemmas and claim C9 -/

theorem splitChar_cons_eq (c x : Char) (xs : List Char) :
    splitChar c (x :: xs) = if x = c then [] :: splitChar c xs
      else match splitChar c xs with
        | [] => [[x]]
        | h :: t => (x :: h) :: t := rfl

theorem splitChar_ne_nil (c : Char) : ∀ l : List Char, splitChar c l ≠ []
  | [] => by simp [splitChar]
  | x :: xs => by
    by_cases hx : x = c
    · simp [splitChar, hx]
    · cases h : splitChar c xs with
      | nil => simp [splitChar, hx, h]
      | cons hd tl => simp [splitChar, hx, h]

theorem splitChar_not_mem (c : Char) : ∀ (l : List Char), ∀ el ∈ splitChar c l, c ∉ el
  | [], el, hel => by
    simp [splitChar] at hel
    simp [hel]
  | x :: xs, el, hel => by
    by_cases hx : x = c
    · rw [show splitChar c (x :: xs) = [] :: splitChar c xs by simp [splitChar, hx]] at hel
      rcases List.mem_cons.mp hel with h | h
      · simp [h]
      · exact splitChar_not_mem c xs el h
    · cases h : splitChar c xs with
      | nil => exact absurd h (splitChar_ne_nil c xs)
      | cons hd tl =>
        rw [show splitChar c (x :: xs) = (x :: hd) :: tl by simp [splitChar, hx, h]] at hel
        rcases List.mem_cons.mp hel with h2 | h2
        · subst h2
          have hhd : c ∉ hd := splitChar_not_mem c xs hd (by simp [h])
          simp [List.mem_cons, hhd]
          exact fun hc => hx hc.symm
        · exact splitChar_not_mem c xs el (by simp [h, h2])

theorem splitChar_head_cons (c x : Char) (xs : List Char) (hx : x ≠ c) :
    ∃ hd tl, splitChar c (x :: xs) = (x :: hd) :: tl := by
  cases h : splitChar c xs with
  | nil => exact absurd h (splitChar_ne_nil c xs)
  | cons hd tl => exact ⟨hd, tl, by simp [splitChar, hx, h]⟩

theorem splitChar_getLast_ne_nil (c : Char) : ∀ (l : List Char), l ≠ [] →
    l.getLast? ≠ some c → ∀ el, (splitChar c l).getLast? = some el → el ≠ []
  | [], hne, _, _, _ => absurd rfl hne
  | [x], _, hlast, el, hel => by
    have hx : x ≠ c := by simpa using hlast
    rw [show splitChar c [x] = [[x]] by simp [splitChar, hx]] at hel
    simp only [List.getLast?_singleton, Option.some.injEq] at hel
    simp [← hel]
  | x :: y :: xs, _, hlast, el, hel => by
    have hlast2 : (y :: xs).getLast? ≠ some c := by
      simpa [List.getLast?_cons_cons] using hlast
    by_cases hx : x = c
    · rw [show splitChar c (x :: y :: xs) = [] :: splitChar c (y :: xs) by
        simp [splitChar, hx]] at hel
      cases hS : splitChar c (y :: xs) with
      | nil => exact absurd hS (splitChar_ne_nil c _)
      | cons s0 S2 =>
        rw [hS, List.getLast?_cons_cons] at hel
        exact splitChar_getLast_ne_nil c (y :: xs) (by simp) hlast2 el (by rw [hS]; exact hel)
    · cases hS : splitChar c (y :: xs) with
      | nil => exact absurd hS (splitChar_ne_nil c _)
      | cons hd tl =>
        rw [show splitChar c (x :: y :: xs) = (x :: hd) :: tl by
          rw [splitChar_cons_eq, if_neg hx, hS]] at hel
        cases tl with
        | nil =>
          simp only [List.getLast?_singleton, Option.some.injEq] at hel
          simp [← hel]
        | cons t0 tl2 =>
          rw [List.getLast?_cons_cons] at hel
          exact splitChar_getLast_ne_nil c (y :: xs) (by simp) hlast2 el
            (by rw [hS, List.getLast?_cons_cons]; exact hel)

theorem getLast?_dropWhile (p : Char → Bool) : ∀ (l : List Char),
    l.dropWhile p = [] ∨ (l.dropWhile p).getLast? = l.getLast?
  | [] => Or.inl rfl
  | x :: xs => by
    by_cases hx : p x
    · rw [List.dropWhile_cons_of_pos hx]
      cases xs with
      | nil => exact Or.inl rfl
      | cons y ys =>
        rcases getLast?_dropWhile p (y :: ys) with h | h
        · exact Or.inl h
        · exact Or.inr (by rw [h, List.getLast?_cons_cons])
    · rw [List.dropWhile_cons_of_neg hx]
      exact Or.inr rfl

theorem head?_dropWhile_false (p : Char → Bool) (l : List Char) (h : Char)
    (hh : (l.dropWhile p).head? = some h) : p h = false := by
  have := List.head?_dropWhile_not p l
  rw [hh] at this
  exact this

/-- Both ends of the trimmed string avoid the cutset. -/
theorem goTrim_ends (s : String) (cutset : List Char) :
    (∀ h, (goTrim s cutset).data.head? = some h → h ∉ cutset) ∧
    (∀ h, (goTrim s cutset).data.getLast? = some h → h ∉ cutset) := by
  unfold goTrim
  constructor
  · intro h hh
    rw [List.head?_reverse] at hh
    rcases getLast?_dropWhile (fun c => decide (c ∈ cutset))
        (s.data.dropWhile (fun c => decide (c ∈ cutset))).reverse with hcase | hcase
    · rw [hcase] at hh
      simp at hh
    · rw [hcase, List.getLast?_reverse] at hh
      have := head?_dropWhile_false _ _ _ hh
      simpa using this
  · intro h hh
    rw [List.getLast?_reverse] at hh
    have := head?_dropWhile_false _ _ _ hh
    simpa using this

/-- C9 amended: the logs/errors splitting returns the empty sequence
exactly when the trimmed text is empty; otherwise no element contains
a newline and the first and last elements are non-empty — but interior
elements can be the empty string when the trimmed text contains
consecutive newlines. -/
theorem trimAndSplit_amended (str : String) :
    (TrimAndSplit str = [] ↔ goTrim str [' ', '\t', '\r', '\n'] = "") ∧
    (∀ el ∈ TrimAndSplit str, '\n' ∉ el.data) ∧
    (∀ el, (TrimAndSplit str).head? = some el → el ≠ "") ∧
    (∀ el, (TrimAndSplit str).getLast? = some el → el ≠ "") := by
  unfold TrimAndSplit
  by_cases hlen : (goTrim str [' ', '\t', '\r', '\n']).length > 0
  · rw [if_pos hlen]
    have hne : (goTrim str [' ', '\t', '\r', '\n']).data ≠ [] := by
      intro hdata
      rw [String.length, hdata] at hlen
      simp at hlen
    refine ⟨?_, ?_, ?_, ?_⟩
    · constructor
      · intro hmap
        rcases List.map_eq_nil_iff.mp hmap with hnil
        exact absurd hnil (splitChar_ne_nil '\n' _)
      · intro hempty
        exact absurd (congrArg String.data hempty) (by simpa using hne)
    · intro el hel
      rcases List.mem_map.mp hel with ⟨part, hpart, rfl⟩
      exact splitChar_not_mem '\n' _ part hpart
    · intro el hel
      rw [List.head?_map] at hel
      cases hdata : (goTrim str [' ', '\t', '\r', '\n']).data with
      | nil => exact absurd hdata hne
      | cons x xs =>
        have hx : x ≠ '\n' := by
          intro hxeq
          have := (goTrim_ends str [' ', '\t', '\r', '\n']).1 x (by rw [hdata]; rfl)
          simp [hxeq] at this
        rcases splitChar_head_cons '\n' x xs hx with ⟨hd, tl, hsplit⟩
        rw [hdata, hsplit] at hel
        simp only [List.head?_cons, Option.map_some] at hel
        have : el = String.mk (x :: hd) := (Option.some.inj hel).symm
        subst this
        intro habs
        exact absurd (congrArg String.data habs) (by simp)
    · intro el hel
      rw [List.getLast?_map] at hel
      have hlast : (goTrim str [' ', '\t', '\r', '\n']).data.getLast? ≠ some '\n' := by
        intro habs
        have := (goTrim_ends str [' ', '\t', '\r', '\n']).2 '\n' habs
        simp at this
      cases hgl : (splitChar '\n' (goTrim str [' ', '\t', '\r', '\n']).data).getLast? with
      | none => rw [hgl] at hel; simp at hel
      | some part =>
        rw [hgl] at hel
        have hel2 : String.mk part = el := Option.some.inj hel
        have hpart : part ≠ [] :=
          splitChar_getLast_ne_nil '\n' _ hne hlast part hgl
        subst hel2
        intro habs
        exact hpart (congrArg String.data habs)
  · rw [if_neg hlen]
    have hdata : (goTrim str [' ', '\t', '\r', '\n']).data = [] := by
      have : (goTrim str [' ', '\t', '\r', '\n']).length = 0 := by omega
      rwa [String.length, List.length_eq_zero] at this
    refine ⟨?_, by simp, by simp, by simp⟩
    simp only [true_iff]
    exact String.ext hdata

/-- C9 witness: the amended theorem applied at the text `"hi"`, whose
single element is newline-free. -/
theorem trimAndSplit_amended_witness :
    "hi" ∈ TrimAndSplit "hi" ∧ '\n' ∉ ("hi" : String).data :=
  ⟨by decide, (trimAndSplit_amended "hi").2.1 "hi" (by decide)⟩

/-! ## First-comma split lemmas and claim C4 -/

theorem string_mk_data (s : String) : String.mk s.data = s := rfl

theorem splitFirstAux_append (c : Char) : ∀ (l1 l2 : List Char), c ∉ l1 →
    splitFirstAux c (l1 ++ c :: l2) = some (l1, l2)
  | [], l2, _ => by simp [splitFirstAux]
  | x :: l1, l2, h => by
    have hx : x ≠ c := fun habs => h (habs ▸ List.mem_cons_self x l1)
    have ih := splitFirstAux_append c l1 l2 (fun hm => h (List.mem_cons_of_mem x hm))
    simp [splitFirstAux, hx, ih]

theorem goSplitN2_append (pre post : String) (hnc : ',' ∉ pre.data) :
    goSplitN2 (pre ++ "," ++ post) ',' = [pre, post] := by
  unfold goSplitN2
  have hdata : (pre ++ "," ++ post).data = pre.data ++ ',' :: post.data := by
    rw [String.data_append, String.data_append, List.append_assoc]
    rfl
  rw [hdata, splitFirstAux_append ',' pre.data post.data hnc]

/-- C4 amended: for an artefact whose uri lacks the `data:` scheme the
decode fails with the format error `Not a data URI`; for a `data:` uri
that contains a comma, the text after the first comma is
base64-decoded — failing with a format error exactly when it is
malformed base64, and otherwise writing the decoded bytes to
`<destinationName>.<extension>`, where the extension is the part of
the artefact's name after its last dot (the whole name when it has no
dot).  (A `data:` uri with no comma panics instead — the
counterexample.) -/
theorem readArtefact_amended (dirpath dest : String) (a : Artefact) :
    (goHasPrefix a.uri "data:" = false → ReadArtefact dirpath dest a = .err "Not a data URI") ∧
    (∀ pre post, a.uri = pre ++ "," ++ post → ',' ∉ pre.data →
      goHasPrefix a.uri "data:" = true →
      (∀ raw, b64decode post.data = some raw →
        ReadArtefact dirpath dest a =
          .ok [(dirpath ++ "/" ++ dest ++ "." ++ goExtension a.name, stringOfBytes raw)]) ∧
      (b64decode post.data = none →
        ReadArtefact dirpath dest a = .err "illegal base64 data")) := by
  constructor
  · intro h
    unfold ReadArtefact
    simp [h]
  · intro pre post huri hnc hpre
    have hsplit : goSplitN2 a.uri ',' = [pre, post] := by
      rw [huri]
      exact goSplitN2_append pre post hnc
    constructor
    · intro raw hraw
      unfold ReadArtefact
      simp [hpre, hsplit, hraw]
    · intro hraw
      unfold ReadArtefact
      simp [hpre, hsplit, hraw]

/-- C4 witness: the amended theorem applied to a well-formed data URI
`data:image/png;base64,AAAA`, decoding to the three zero bytes written
to `img.png`. -/
theorem readArtefact_amended_witness :
    ("data:image/png;base64,AAAA" : String) = "data:image/png;base64" ++ "," ++ "AAAA" ∧
    ReadArtefact "/w" "img" ⟨"x.png", "image/png", "data:image/png;base64,AAAA"⟩ =
      .ok [("/w/img.png", stringOfBytes [0, 0, 0])] :=
  ⟨rfl,
    ((readArtefact_amended "/w" "img"
        ⟨"x.png", "image/png", "data:image/png;base64,AAAA"⟩).2
      "data:image/png;base64" "AAAA" rfl (by decide) rfl).1 [0, 0, 0] rfl⟩

/-! ## Packager lemmas and claim C5 -/

theorem packageFiles_ok_append (fs : FileSystem) : ∀ (files : List String) (first : Bool)
    (acc : String), (∀ f ∈ files, ∃ d, HandleOutputFile fs f = .ok d) →
    ∃ tail, packageFiles fs files first acc = .ok (acc ++ tail)
  | [], _, acc, _ => ⟨"", by simp [packageFiles, String.append_empty]⟩
  | file :: rest, first, acc, h => by
    obtain ⟨d, hd⟩ := h file (List.mem_cons_self _ _)
    have hrest : ∀ f ∈ rest, ∃ d2, HandleOutputFile fs f = .ok d2 :=
      fun f hf => h f (List.mem_cons_of_mem _ hf)
    unfold packageFiles
    rw [hd]
    cases first
    · obtain ⟨tail, htail⟩ := packageFiles_ok_append fs rest false
        ((acc ++ ",\n") ++ "\t\t\"" ++ goBase file ++ "\": " ++ d) hrest
      refine ⟨",\n" ++ ("\t\t\"" ++ (goBase file ++ ("\": " ++ (d ++ tail)))), ?_⟩
      have hgoal : packageFiles fs rest false
          ((acc ++ ",\n") ++ "\t\t\"" ++ goBase file ++ "\": " ++ d) =
          .ok (acc ++ (",\n" ++ ("\t\t\"" ++ (goBase file ++ ("\": " ++ (d ++ tail)))))) := by
        rw [htail]
        congr 1
        simp only [String.append_assoc]
      exact hgoal
    · obtain ⟨tail, htail⟩ := packageFiles_ok_append fs rest false
        (acc ++ "\t\t\"" ++ goBase file ++ "\": " ++ d) hrest
      refine ⟨"\t\t\"" ++ (goBase file ++ ("\": " ++ (d ++ tail))), ?_⟩
      have hgoal : packageFiles fs rest false
          (acc ++ "\t\t\"" ++ goBase file ++ "\": " ++ d) =
          .ok (acc ++ ("\t\t\"" ++ (goBase file ++ ("\": " ++ (d ++ tail))))) := by
        rw [htail]
        congr 1
        simp only [String.append_assoc]
      exact hgoal

theorem packageFiles_contains (fs : FileSystem) : ∀ (files : List String) (first : Bool)
    (acc : String) (f s : String), f ∈ files → HandleOutputFile fs f = .ok s →
    (∀ g ∈ files, ∃ d, HandleOutputFile fs g = .ok d) →
    ∃ p q, packageFiles fs files first acc = .ok (p ++ s ++ q)
  | [], _, _, f, _, hf, _, _ => absurd hf (List.not_mem_nil f)
  | file :: rest, first, acc, f, s, hf, hs, hall => by
    obtain ⟨d, hd⟩ := hall file (List.mem_cons_self _ _)
    have hrest : ∀ g ∈ rest, ∃ d2, HandleOutputFile fs g = .ok d2 :=
      fun g hg => hall g (List.mem_cons_of_mem _ hg)
    unfold packageFiles
    rw [hd]
    rcases List.mem_cons.mp hf with rfl | hf2
    · have hds : d = s := GoOutcome.ok.inj (hd.symm.trans hs)
      subst hds
      obtain ⟨tail, htail⟩ := packageFiles_ok_append fs rest false
        ((if first then acc else acc ++ ",\n") ++ "\t\t\"" ++ goBase f ++ "\": " ++ d) hrest
      exact ⟨(if first then acc else acc ++ ",\n") ++ "\t\t\"" ++ goBase f ++ "\": ",
        tail, htail⟩
    · exact packageFiles_contains fs rest false
        ((if first then acc else acc ++ ",\n") ++ "\t\t\"" ++ goBase file ++ "\": " ++ d)
        f s hf2 hs hrest

/-- C5 amended: a changed file whose name ends in `.json` has its raw
bytes embedded verbatim in the packaged response — no JSON parse takes
place, so no parse failure can abort the packaging (a read failure is
an IO error that does abort it); every other changed file is encoded
via the Artifact Codec (`MakeArtefact`). -/
theorem packageResult_json_verbatim (cwd dirpath : String) (since : Int)
    (stdout stderr : String) (fs : FileSystem) (files : List String)
    (hscan : GetChangedFiles cwd dirpath since fs = .ok files)
    (hall : ∀ f ∈ files, ∃ d, HandleOutputFile fs f = .ok d) :
    (∀ f, goHasSuffix f ".json" = false → HandleOutputFile fs f = MakeArtefact fs f) ∧
    (∀ f ∈ files, ∀ s, goHasSuffix f ".json" = true → fs.readFile f = some s →
      ∃ p q, PackageResult cwd dirpath since stdout stderr fs = .ok (p ++ s ++ q)) := by
  constructor
  · intro f hf
    unfold HandleOutputFile
    simp [hf]
  · intro f hf s hsuf hread
    have hout : HandleOutputFile fs f = .ok s := by
      unfold HandleOutputFile
      simp [hsuf, hread]
    obtain ⟨p, q, hpq⟩ :=
      packageFiles_contains fs files true (packageHeader stdout stderr) f s hf hout hall
    have hred : PackageResult cwd dirpath since stdout stderr fs =
        match packageFiles fs files true (packageHeader stdout stderr) with
        | .panic p2 => .panic p2
        | .err e => .err e
        | .ok response => .ok (response ++ "\n\t\x7d\n\x7d") := by
      unfold PackageResult
      rw [hscan]
    refine ⟨p, q ++ "\n\t\x7d\n\x7d", ?_⟩
    rw [hred, hpq]
    exact congrArg GoOutcome.ok (String.append_assoc (p ++ s) q "\n\t\x7d\n\x7d")

/-- C5 witness: the changed file `a.json` containing `5` appears
verbatim in the successfully packaged response. -/
theorem packageResult_json_verbatim_witness :
    ∃ p q, PackageResult "/w" "/w" 0 "" "" fsAJson = .ok (p ++ "5" ++ q) :=
  (packageResult_json_verbatim "/w" "/w" 0 "" "" fsAJson ["/w/a.json"] rfl
      (by
        intro f hf
        rw [List.mem_singleton] at hf
        subst hf
        exact ⟨"5", rfl⟩)).2
    "/w/a.json" (List.mem_singleton.mpr rfl) "5" rfl rfl

/-! ## Base64 round-trip lemmas -/

theorem b64val_b64char : ∀ n < 64, b64val (b64char n) = some n := by decide

theorem b64val_some_of_lt (n : Nat) (h : n < 64) : b64val (b64char n) = some n :=
  b64val_b64char n h

theorem b64char_ne_of_val (n : Nat) (hn : n < 64) (c : Char) (hc : b64val c = none) :
    b64char n ≠ c := by
  intro habs
  have hv := b64val_some_of_lt n hn
  rw [habs, hc] at hv
  cases hv

theorem b64encode_mem : ∀ (data : List Nat), (∀ b ∈ data, b < 256) →
    ∀ c ∈ b64encode data, (∃ v, b64val c = some v) ∨ c = '='
  | [], _, c, hc => by simp [b64encode] at hc
  | [a], h, c, hc => by
    have ha : a < 256 := h a (by simp)
    rw [show b64encode [a] = [b64char (a / 4), b64char ((a % 4) * 16), '=', '='] from rfl]
      at hc
    simp only [List.mem_cons, List.not_mem_nil, or_false] at hc
    rcases hc with rfl | rfl | rfl | rfl
    · exact Or.inl ⟨a / 4, b64val_some_of_lt _ (by omega)⟩
    · exact Or.inl ⟨(a % 4) * 16, b64val_some_of_lt _ (by omega)⟩
    · exact Or.inr rfl
    · exact Or.inr rfl
  | [a, b], h, c, hc => by
    have ha : a < 256 := h a (by simp)
    have hb : b < 256 := h b (by simp)
    rw [show b64encode [a, b] = [b64char (a / 4), b64char ((a % 4) * 16 + b / 16),
        b64char ((b % 16) * 4), '='] from rfl] at hc
    simp only [List.mem_cons, List.not_mem_nil, or_false] at hc
    rcases hc with rfl | rfl | rfl | rfl
    · exact Or.inl ⟨a / 4, b64val_some_of_lt _ (by omega)⟩
    · exact Or.inl ⟨(a % 4) * 16 + b / 16, b64val_some_of_lt _ (by omega)⟩
    · exact Or.inl ⟨(b % 16) * 4, b64val_some_of_lt _ (by omega)⟩
    · exact Or.inr rfl
  | a :: b :: d :: rest, h, c, hc => by
    have ha : a < 256 := h a (by simp)
    have hb : b < 256 := h b (by simp)
    have hd : d < 256 := h d (by simp)
    rw [show b64encode (a :: b :: d :: rest) = b64char (a / 4) ::
        b64char ((a % 4) * 16 + b / 16) :: b64char ((b % 16) * 4 + d / 64) ::
        b64char (d % 64) :: b64encode rest from rfl] at hc
    simp only [List.mem_cons] at hc
    rcases hc with rfl | rfl | rfl | rfl | hmem
    · exact Or.inl ⟨a / 4, b64val_some_of_lt _ (by omega)⟩
    · exact Or.inl ⟨(a % 4) * 16 + b / 16, b64val_some_of_lt _ (by omega)⟩
    · exact Or.inl ⟨(b % 16) * 4 + d / 64, b64val_some_of_lt _ (by omega)⟩
    · exact Or.inl ⟨d % 64, b64val_some_of_lt _ (by omega)⟩
    · exact b64encode_mem rest (fun x hx => h x (by simp [hx])) c hmem

theorem b64encode_filter (data : List Nat) (h : ∀ b ∈ data, b < 256) :
    (b64encode data).filter (fun c => c ≠ '\n' ∧ c ≠ '\r') = b64encode data := by
  rw [List.filter_eq_self]
  intro c hc
  rcases b64encode_mem data h c hc with ⟨v, hv⟩ | rfl
  · have hnl : c ≠ '\n' := by
      intro habs
      rw [habs] at hv
      cases hv
    have hcr : c ≠ '\r' := by
      intro habs
      rw [habs] at hv
      cases hv
    simp [hnl, hcr]
  · decide

theorem b64roundtrip_blocks : ∀ (data : List Nat), (∀ b ∈ data, b < 256) →
    b64decodeBlocks (b64encode data) = some data
  | [], _ => rfl
  | [a], h => by
    have ha : a < 256 := h a (by simp)
    rw [show b64encode [a] = [b64char (a / 4), b64char ((a % 4) * 16), '=', '='] from rfl]
    unfold b64decodeBlocks
    rw [if_pos (by simp [List.isEmpty]), if_pos ⟨rfl, rfl⟩,
      b64val_some_of_lt (a / 4) (by omega), b64val_some_of_lt ((a % 4) * 16) (by omega)]
    have e1 : a / 4 * 4 + (a % 4) * 16 / 16 = a := by omega
    show some [a / 4 * 4 + (a % 4) * 16 / 16] = some [a]
    rw [e1]
  | [a, b], h => by
    have ha : a < 256 := h a (by simp)
    have hb : b < 256 := h b (by simp)
    rw [show b64encode [a, b] = [b64char (a / 4), b64char ((a % 4) * 16 + b / 16),
        b64char ((b % 16) * 4), '='] from rfl]
    unfold b64decodeBlocks
    rw [if_pos (by simp [List.isEmpty])]
    rw [if_neg (by
      rintro ⟨h3, -⟩
      exact b64char_ne_of_val ((b % 16) * 4) (by omega) '=' rfl h3)]
    rw [if_pos rfl]
    rw [b64val_some_of_lt (a / 4) (by omega),
      b64val_some_of_lt ((a % 4) * 16 + b / 16) (by omega),
      b64val_some_of_lt ((b % 16) * 4) (by omega)]
    have e1 : a / 4 * 4 + ((a % 4) * 16 + b / 16) / 16 = a := by omega
    have e2 : ((a % 4) * 16 + b / 16) % 16 * 16 + (b % 16) * 4 / 4 = b := by omega
    show some [a / 4 * 4 + ((a % 4) * 16 + b / 16) / 16,
      ((a % 4) * 16 + b / 16) % 16 * 16 + (b % 16) * 4 / 4] = some [a, b]
    rw [e1, e2]
  | a :: b :: d :: rest, h => by
    have ha : a < 256 := h a (by simp)
    have hb : b < 256 := h b (by simp)
    have hd : d < 256 := h d (by simp)
    have hrest : ∀ x ∈ rest, x < 256 := fun x hx => h x (by simp [hx])
    have ih := b64roundtrip_blocks rest hrest
    rw [show b64encode (a :: b :: d :: rest) = b64char (a / 4) ::
        b64char ((a % 4) * 16 + b / 16) :: b64char ((b % 16) * 4 + d / 64) ::
        b64char (d % 64) :: b64encode rest from rfl]
    have e1 : a / 4 * 4 + ((a % 4) * 16 + b / 16) / 16 = a := by omega
    have e2 : ((a % 4) * 16 + b / 16) % 16 * 16 + ((b % 16) * 4 + d / 64) / 4 = b := by
      omega
    have e3 : ((b % 16) * 4 + d / 64) % 4 * 64 + d % 64 = d := by omega
    cases hrest2 : b64encode rest with
    | nil =>
      have hrnil : rest = [] := by
        cases rest with
        | nil => rfl
        | cons r rs =>
          exfalso
          cases rs with
          | nil => simp [b64encode] at hrest2
          | cons r2 rs2 =>
            cases rs2 with
            | nil => simp [b64encode] at hrest2
            | cons r3 rs3 => simp [b64encode] at hrest2
      subst hrnil
      unfold b64decodeBlocks
      rw [if_pos (by simp [List.isEmpty])]
      rw [if_neg (by
        rintro ⟨h3, -⟩
        exact b64char_ne_of_val ((b % 16) * 4 + d / 64) (by omega) '=' rfl h3)]
      rw [if_neg (by
        intro h4
        exact b64char_ne_of_val (d % 64) (by omega) '=' rfl h4)]
      rw [b64val_some_of_lt (a / 4) (by omega),
        b64val_some_of_lt ((a % 4) * 16 + b / 16) (by omega),
        b64val_some_of_lt ((b % 16) * 4 + d / 64) (by omega),
        b64val_some_of_lt (d % 64) (by omega)]
      show some [a / 4 * 4 + ((a % 4) * 16 + b / 16) / 16,
        ((a % 4) * 16 + b / 16) % 16 * 16 + ((b % 16) * 4 + d / 64) / 4,
        ((b % 16) * 4 + d / 64) % 4 * 64 + d % 64] = some [a, b, d]
      rw [e1, e2, e3]
    | cons e0 es =>
      unfold b64decodeBlocks
      rw [if_neg (by simp [List.isEmpty])]
      rw [b64val_some_of_lt (a / 4) (by omega),
        b64val_some_of_lt ((a % 4) * 16 + b / 16) (by omega),
        b64val_some_of_lt ((b % 16) * 4 + d / 64) (by omega),
        b64val_some_of_lt (d % 64) (by omega)]
      rw [← hrest2, ih]
      show some ((a / 4 * 4 + ((a % 4) * 16 + b / 16) / 16) ::
        (((a % 4) * 16 + b / 16) % 16 * 16 + ((b % 16) * 4 + d / 64) / 4) ::
        (((b % 16) * 4 + d / 64) % 4 * 64 + d % 64) :: rest) = some (a :: b :: d :: rest)
      rw [e1, e2, e3]

/-- Round trip of the Go base64 codec on any byte list. -/
theorem b64decode_encode (data : List Nat) (h : ∀ b ∈ data, b < 256) :
    b64decode (b64encode data) = some data := by
  unfold b64decode
  rw [b64encode_filter data h]
  exact b64roundtrip_blocks data h

/-! ## Content-type lemmas: the sniffed type never contains a comma -/

theorem sniffMatch_eq_ct (s : SniffSig) (data : List Nat) (i : Nat) (ct : String)
    (h : sniffMatch s data i = some ct) : ct = s.ct := by
  cases s with
  | html tag =>
    rw [show sniffMatch (.html tag) data i =
      (if (data.drop i).length < (strBytes tag).length + 1 then none
       else if htmlMatchBytes (strBytes tag) (data.drop i) then
         (if (data.drop i).getD (strBytes tag).length 0 = 32 ∨
             (data.drop i).getD (strBytes tag).length 0 = 62 then
            some "text/html; charset=utf-8" else none)
       else none) from rfl] at h
    split at h
    · cases h
    · split at h
      · split at h
        · exact (Option.some.inj h).symm
        · cases h
      · cases h
  | masked mask pat skipWS mct =>
    cases skipWS with
    | false =>
      rw [show sniffMatch (.masked mask pat false mct) data i =
        (if pat.length ≠ mask.length then none
         else if data.length < pat.length then none
         else if maskedMatchBytes mask pat data then some mct else none) from rfl] at h
      split at h
      · cases h
      · split at h
        · cases h
        · split at h
          · exact (Option.some.inj h).symm
          · cases h
    | true =>
      rw [show sniffMatch (.masked mask pat true mct) data i =
        (if pat.length ≠ mask.length then none
         else if (data.drop i).length < pat.length then none
         else if maskedMatchBytes mask pat (data.drop i) then some mct else none)
        from rfl] at h
      split at h
      · cases h
      · split at h
        · cases h
        · split at h
          · exact (Option.some.inj h).symm
          · cases h
  | exactSig sig ect =>
    rw [show sniffMatch (.exactSig sig ect) data i =
      (if sig.isPrefixOf data then some ect else none) from rfl] at h
    split at h
    · exact (Option.some.inj h).symm
    · cases h
  | mp4 =>
    rw [show sniffMatch .mp4 data i =
      (if data.length < 12 then none
       else if data.length < (data.getD 0 0 * 16777216 + data.getD 1 0 * 65536 +
           data.getD 2 0 * 256 + data.getD 3 0) ∨
           (data.getD 0 0 * 16777216 + data.getD 1 0 * 65536 + data.getD 2 0 * 256 +
            data.getD 3 0) % 4 ≠ 0 then none
       else if (data.drop 4).take 4 ≠ strBytes "ftyp" then none
       else if mp4Scan data (data.getD 0 0 * 16777216 + data.getD 1 0 * 65536 +
           data.getD 2 0 * 256 + data.getD 3 0) 8 (data.getD 0 0 * 16777216 +
           data.getD 1 0 * 65536 + data.getD 2 0 * 256 + data.getD 3 0) then
         some "video/mp4" else none) from rfl] at h
    split at h
    · cases h
    · split at h
      · cases h
      · split at h
        · cases h
        · split at h
          · exact (Option.some.inj h).symm
          · cases h
  | text =>
    rw [show sniffMatch .text data i =
      (if (data.drop i).all (fun b => ¬(b ≤ 8 ∨ b = 0x0B ∨ (0x0E ≤ b ∧ b ≤ 0x1A) ∨
          (0x1C ≤ b ∧ b ≤ 0x1F))) then some "text/plain; charset=utf-8" else none)
        from rfl] at h
    split at h
    · exact (Option.some.inj h).symm
    · cases h

theorem firstSniffMatch_mem : ∀ (sigs : List SniffSig) (data : List Nat) (i : Nat)
    (ct : String), firstSniffMatch sigs data i = some ct → ∃ s ∈ sigs, ct = s.ct
  | [], _, _, _, h => by simp [firstSniffMatch] at h
  | s :: rest, data, i, ct, h => by
    unfold firstSniffMatch at h
    cases hm : sniffMatch s data i with
    | some ct2 =>
      rw [hm] at h
      have h2 : some ct2 = some ct := h
      exact ⟨s, List.mem_cons_self _ _,
        (Option.some.inj h2) ▸ sniffMatch_eq_ct s data i ct2 hm⟩
    | none =>
      rw [hm] at h
      have h2 : firstSniffMatch rest data i = some ct := h
      obtain ⟨s2, hs2, hct⟩ := firstSniffMatch_mem rest data i ct h2
      exact ⟨s2, List.mem_cons_of_mem _ hs2, hct⟩

theorem sniffSignatures_ct_noComma : ∀ s ∈ sniffSignatures, ',' ∉ (SniffSig.ct s).data := by
  decide

theorem detectContentType_noComma (data : List Nat) :
    ',' ∉ (DetectContentType data).data := by
  show ',' ∉ (match firstSniffMatch sniffSignatures (data.take 512)
      (((data.take 512).takeWhile sniffIsWS).length) with
    | some ct => ct
    | none => "application/octet-stream").data
  cases hm : firstSniffMatch sniffSignatures (data.take 512)
      (((data.take 512).takeWhile sniffIsWS).length) with
  | some ct =>
    obtain ⟨s, hs, hct⟩ := firstSniffMatch_mem _ _ _ _ hm
    exact hct ▸ sniffSignatures_ct_noComma s hs
  | none => decide

/-! ## Extension lemmas -/

theorem goLastIndexSucc_zero_iff (c : Char) : ∀ (l : List Char),
    goLastIndexSucc c l = 0 ↔ c ∉ l
  | [] => by simp [goLastIndexSucc]
  | x :: xs => by
    have ih := goLastIndexSucc_zero_iff c xs
    unfold goLastIndexSucc
    cases hz : goLastIndexSucc c xs with
    | zero =>
      have hnx : c ∉ xs := ih.mp hz
      by_cases hxc : x = c
      · subst hxc
        simp
      · rw [if_neg hxc]
        simp only [List.mem_cons, not_or, true_iff]
        exact ⟨fun habs => hxc habs.symm, hnx⟩
    | succ n =>
      have hmem : c ∈ xs := by
        by_contra hno
        rw [ih.mpr hno] at hz
        cases hz
      simp [List.mem_cons, hmem]

theorem goLastIndexSucc_append (c : Char) : ∀ (l1 l2 : List Char), c ∉ l2 →
    goLastIndexSucc c (l1 ++ c :: l2) = l1.length + 1
  | [], l2, h => by
    rw [List.nil_append]
    unfold goLastIndexSucc
    rw [(goLastIndexSucc_zero_iff c l2).mpr h]
    simp
  | x :: l1, l2, h => by
    have ih := goLastIndexSucc_append c l1 l2 h
    rw [List.cons_append]
    unfold goLastIndexSucc
    rw [ih]
    simp

theorem goExtension_append_dot (pre e : String) (he : '.' ∉ e.data) :
    goExtension (pre ++ "." ++ e) = e := by
  unfold goExtension
  have hdata : (pre ++ "." ++ e).data = pre.data ++ '.' :: e.data := by
    rw [String.data_append, String.data_append, List.append_assoc]
    rfl
  rw [hdata, goLastIndexSucc_append '.' pre.data e.data he]
  rw [show pre.data ++ '.' :: e.data = (pre.data ++ ['.']) ++ e.data by simp]
  rw [show pre.data.length + 1 = (pre.data ++ ['.']).length by simp]
  rw [List.drop_left]

theorem goExtension_noDot_aux : ∀ (l : List Char), '.' ∉ l.drop (goLastIndexSucc '.' l)
  | [] => by simp
  | x :: xs => by
    unfold goLastIndexSucc
    cases hz : goLastIndexSucc '.' xs with
    | zero =>
      have hnx : '.' ∉ xs := (goLastIndexSucc_zero_iff '.' xs).mp hz
      by_cases hxc : x = '.'
      · subst hxc
        rw [if_pos rfl]
        simpa using hnx
      · rw [if_neg hxc]
        simp only [List.drop_zero, List.mem_cons, not_or]
        exact ⟨fun habs => hxc habs.symm, hnx⟩
    | succ n =>
      have ih := goExtension_noDot_aux xs
      rw [hz] at ih
      rw [List.drop_succ_cons]
      exact ih

theorem goExtension_noDot (s : String) : '.' ∉ (goExtension s).data := by
  unfold goExtension
  exact goExtension_noDot_aux s.data

theorem stringOfBytes_bytesOf (s : String) : stringOfBytes (bytesOf s) = s := by
  unfold stringOfBytes bytesOf
  rw [List.map_map]
  have hmap : s.data.map (Char.ofNat ∘ Char.toNat) = s.data := by
    conv_rhs => rw [← List.map_id s.data]
    exact List.map_congr_left (fun c _ => Char.ofNat_toNat c)
  rw [hmap]

theorem goHasPrefix_append (pre rest : String) : goHasPrefix (pre ++ rest) pre = true := by
  unfold goHasPrefix
  apply List.isPrefixOf_iff_prefix.mpr
  rw [String.data_append]
  exact List.prefix_append _ _

/-! ## Claim C2: artifact codec round trip -/

/-- C2: encoding a file (contents `content`, any path) with the
artifact codec and decoding the resulting artefact record writes back
exactly the original bytes, to `<dest>.<ext>` where `ext` is the
extension of the original file's base name; the extension of the
reconstructed filename equals the extension of the original file. -/
theorem artefact_codec_roundtrip (dirpath dest path content : String)
    (hbytes : ∀ c ∈ content.data, c.toNat < 256) :
    ReadArtefact dirpath dest (MakeArtefactRecord path content) =
      .ok [(dirpath ++ "/" ++ dest ++ "." ++ goExtension (goBase path), content)] ∧
    goExtension (dest ++ "." ++ goExtension (goBase path)) = goExtension (goBase path) := by
  have hb : ∀ b ∈ bytesOf content, b < 256 := by
    intro b hbm
    rw [bytesOf, List.mem_map] at hbm
    obtain ⟨c, hc, rfl⟩ := hbm
    exact hbytes c hc
  have hrec : MakeArtefactRecord path content =
      ⟨goBase path, DetectContentType (bytesOf content),
        "data:" ++ DetectContentType (bytesOf content) ++ ";base64," ++
          String.mk (b64encode (bytesOf content))⟩ := rfl
  constructor
  · have hassoc : "data:" ++ DetectContentType (bytesOf content) ++ ";base64," ++
        String.mk (b64encode (bytesOf content)) =
        "data:" ++ (DetectContentType (bytesOf content) ++ (";base64," ++
          String.mk (b64encode (bytesOf content)))) := by
      simp [String.append_assoc]
    have hpre : goHasPrefix ("data:" ++ DetectContentType (bytesOf content) ++
        ";base64," ++ String.mk (b64encode (bytesOf content))) "data:" = true := by
      rw [hassoc]
      exact goHasPrefix_append "data:" _
    have hnc : ',' ∉ ("data:" ++ DetectContentType (bytesOf content) ++ ";base64").data := by
      rw [String.data_append, String.data_append]
      simp only [List.mem_append, not_or]
      exact ⟨⟨by decide, detectContentType_noComma _⟩, by decide⟩
    have huri_eq : "data:" ++ DetectContentType (bytesOf content) ++ ";base64," ++
        String.mk (b64encode (bytesOf content)) =
        ("data:" ++ DetectContentType (bytesOf content) ++ ";base64") ++ "," ++
          String.mk (b64encode (bytesOf content)) := by
      rw [show (("data:" ++ DetectContentType (bytesOf content) ++ ";base64") ++ ",") =
        "data:" ++ DetectContentType (bytesOf content) ++ ";base64," from by
          rw [String.append_assoc]
          rfl]
    have hsplit : goSplitN2 ("data:" ++ DetectContentType (bytesOf content) ++
        ";base64," ++ String.mk (b64encode (bytesOf content))) ',' =
        ["data:" ++ DetectContentType (bytesOf content) ++ ";base64",
         String.mk (b64encode (bytesOf content))] := by
      rw [huri_eq]
      exact goSplitN2_append _ _ hnc
    have hdec : b64decode (String.mk (b64encode (bytesOf content))).data =
        some (bytesOf content) := b64decode_encode (bytesOf content) hb
    rw [hrec]
    unfold ReadArtefact
    simp [hpre, hsplit, hdec, stringOfBytes_bytesOf]
  · exact goExtension_append_dot dest (goExtension (goBase path))
      (goExtension_noDot (goBase path))

/-- C2 witness: the codec round trip on the file `/w/pic.png` with
contents `hi`, reconstructed at `out.png` with the same bytes and the
same extension. -/
theorem artefact_codec_roundtrip_witness :
    (∀ c ∈ ("hi" : String).data, c.toNat < 256) ∧
    (ReadArtefact "/w" "out" (MakeArtefactRecord "/w/pic.png" "hi") =
      .ok [("/w" ++ "/" ++ "out" ++ "." ++ goExtension (goBase "/w/pic.png"), "hi")] ∧
     goExtension ("out" ++ "." ++ goExtension (goBase "/w/pic.png")) =
       goExtension (goBase "/w/pic.png")) :=
  ⟨by decide, artefact_codec_roundtrip "/w" "out" "/w/pic.png" "hi" (by decide)⟩

end Patchwork
